import Mathlib

/-!
# Smart Recipe Generator — verification of the recommendation engine

Shallow embedding of the two recommendation engines of the repository:

* `SimpleRecipeRecommender` of `src/app_working.py` (the `w…` definitions);
* `RecipeRecommendationEngine` of `src/app.py` (the `m…` definitions).

Conventions of the embedding:

* Python dict records become Lean structures; a field read with
  `recipe.get(k, default)` becomes an `Option` field (`none` = key absent)
  read with `Option.getD`.
* Python `set` of strings becomes `Finset String`; Python floats become `ℚ`
  (the scores are exact rationals of small denominator; Python's
  `round(x, 1)` is modelled as exact rational rounding half-to-even).
* The TF-IDF/cosine lexical similarity of `app.py` is floating-point machine
  learning and is abstracted as a parameter `sim : String → ℕ → ℚ`
  (query text ↦ corpus position ↦ similarity); cosine similarity of
  non-negative TF-IDF vectors always lies in `[0, 1]`.
* Python exceptions that escape a function become `Except Unit`; the
  `try/except` blocks of `app_working.py` make its engine total.
* `list.sort(key=…, reverse=True)` (CPython Timsort, stable, ties keep
  original order) is modelled by `List.insertionSort` with the
  score-descending relation, which has the same stability property.
-/

/-- Python's substring test `needle in hay` on strings. -/
def strContains (hay needle : String) : Bool :=
  hay.data.tails.any (fun t => needle.data.isPrefixOf t)

/-- ASCII lower-casing of one character (the ingredient and filter strings
of this corpus are ASCII, where Python's `str.lower` acts exactly like
this). -/
def lowerChar (c : Char) : Char :=
  if 65 ≤ c.toNat ∧ c.toNat ≤ 90 then Char.ofNat (c.toNat + 32) else c

/-- Python's `str.lower()`, character-wise. -/
def pyLower (s : String) : String := ⟨s.data.map lowerChar⟩

/-- Python's `str.strip()`: remove leading and trailing whitespace. -/
def pyStrip (s : String) : String :=
  ⟨((s.data.dropWhile Char.isWhitespace).reverse.dropWhile
      Char.isWhitespace).reverse⟩

/-- Round a rational to the nearest integer, ties to even
(Python's `round` tie-breaking rule). -/
def roundHalfEven (q : ℚ) : ℤ :=
  if q - (⌊q⌋ : ℚ) < 1/2 then ⌊q⌋
  else if 1/2 < q - (⌊q⌋ : ℚ) then ⌊q⌋ + 1
  else if ⌊q⌋ % 2 = 0 then ⌊q⌋ else ⌊q⌋ + 1

/-- Python's `round(q, 1)`: round to one decimal place. -/
def round1 (q : ℚ) : ℚ :=
  (roundHalfEven (q * 10) : ℚ) / 10

/-- A scored recommendation entry (`recipe_copy` of the source, with the
derived fields added by the scoring loop).  `corpusIdx` is not a field of
the Python record: it is embedding bookkeeping recording the position of
the scored recipe in the scan over the corpus, used only to state the
ranking-stability invariant. -/
structure Scored (ρ : Type) where
  recipe : ρ
  corpusIdx : ℕ
  matchScore : ℚ
  ingredientMatchPercentage : ℚ
  missingIngredients : List String
  substitutionSuggestions : List (String × List String)
  deriving DecidableEq, Repr

/-- The ranking relation: `a` ranks at least as high as `b`
(`match_score` descending). -/
def scoreGE {ρ : Type} (a b : Scored ρ) : Prop :=
  b.matchScore ≤ a.matchScore

instance {ρ : Type} : DecidableRel (@scoreGE ρ) :=
  fun a b => inferInstanceAs (Decidable (b.matchScore ≤ a.matchScore))

instance {ρ : Type} : IsTotal (Scored ρ) scoreGE :=
  ⟨fun a b => (le_total b.matchScore a.matchScore).imp id id⟩

instance {ρ : Type} : IsTrans (Scored ρ) scoreGE :=
  ⟨fun _ _ _ h1 h2 => le_trans h2 h1⟩

/-- Models `recommendations.sort(key=lambda x: x['match_score'], reverse=True)`:
stable sort by `match_score` descending. -/
def sortByScore {ρ : Type} (l : List (Scored ρ)) : List (Scored ρ) :=
  List.insertionSort scoreGE l

/-! ## The `app_working.py` engine (`SimpleRecipeRecommender`) -/

/-- The dietary-flag record of `app_working.py`: `recipe['dietary_info']`
is a dict of booleans read with `.get(flag, False)`, so an absent flag is
the same as `False`. -/
structure WDietary where
  vegetarian : Bool := false
  vegan : Bool := false
  glutenFree : Bool := false
  dairyFree : Bool := false
  deriving DecidableEq, Repr

/-- A recipe record as consumed by `SimpleRecipeRecommender`.  Every field
is read defensively with `.get`, so all fields are optional; an absent
`ingredients` key defaults to `[]` and absent `dietary_info` to the
all-false flag record. -/
structure WRecipe where
  id : Option Int := none
  name : Option String := none
  ingredients : List String := []
  cookingTime : Option Int := none
  difficulty : Option String := none
  cuisine : Option String := none
  dietaryInfo : WDietary := {}
  deriving DecidableEq, Repr

/-- Models `ing.lower().strip()` — the normalization applied to every ingredient
string by `app_working.py`. -/
def normW (s : String) : String := pyStrip (pyLower s)

/-- Models `set(ing.lower().strip() for ing in recipe.get('ingredients', []))`. -/
def wRecipeSet (r : WRecipe) : Finset String :=
  (r.ingredients.map normW).toFinset

/-- Models `set(ing.lower().strip() for ing in ingredients)` — the query set. -/
def wQuerySet (ingredients : List String) : Finset String :=
  (ingredients.map normW).toFinset

/-- Models `SimpleRecipeRecommender._matches_dietary_restrictions` (lines
120–132): each requested restriction is lower-cased and compared against
the four recognised names; a recognised restriction fails when its flag is
false; a restriction matching none of the four branches imposes nothing. -/
def wMatchesDietaryRestrictions (recipeDietary : WDietary)
    (restrictions : List String) : Bool :=
  restrictions.all fun restriction =>
    let rl := pyLower restriction
    if rl = "vegetarian" then recipeDietary.vegetarian
    else if rl = "vegan" then recipeDietary.vegan
    else if rl = "gluten-free" then recipeDietary.glutenFree
    else if rl = "dairy-free" then recipeDietary.dairyFree
    else true

/-- Lines 62–66: the dietary filter runs only when the restriction list is
truthy (non-empty). -/
def wDietaryOk (restrictions : List String) (r : WRecipe) : Bool :=
  if restrictions = [] then true
  else wMatchesDietaryRestrictions r.dietaryInfo restrictions

/-- Line 69: `if max_cooking_time and recipe.get('cooking_time', 0) >
max_cooking_time: continue`.  `max_cooking_time = 0` is falsy and disables
the filter; a missing `cooking_time` defaults to `0`. -/
def wTimeOk (maxCookingTime : Option Int) (r : WRecipe) : Bool :=
  match maxCookingTime with
  | none => true
  | some m => if m ≠ 0 ∧ r.cookingTime.getD 0 > m then false else true

/-- Line 72: `if difficulty and recipe.get('difficulty', '').lower() !=
difficulty.lower(): continue`.  An empty filter string is falsy. -/
def wDifficultyOk (difficulty : Option String) (r : WRecipe) : Bool :=
  match difficulty with
  | none => true
  | some d =>
    if d ≠ "" ∧ pyLower (r.difficulty.getD ("")) ≠ pyLower d then false else true

/-- Line 75: the analogous cuisine filter. -/
def wCuisineOk (cuisine : Option String) (r : WRecipe) : Bool :=
  match cuisine with
  | none => true
  | some c =>
    if c ≠ "" ∧ pyLower (r.cuisine.getD ("")) ≠ pyLower c then false else true

/-- The static substitution table of `SimpleRecipeRecommender._get_substitutions`
(lines 136–149), in its Python dict insertion order. -/
def wSubstitutionTable : List (String × List String) :=
  [("butter", ["olive oil", "coconut oil"]),
   ("milk", ["almond milk", "soy milk"]),
   ("eggs", ["flax eggs", "applesauce"]),
   ("flour", ["almond flour", "coconut flour"]),
   ("sugar", ["honey", "maple syrup"]),
   ("cream", ["coconut cream", "cashew cream"]),
   ("cheese", ["nutritional yeast", "cashew cheese"]),
   ("chicken", ["tofu", "tempeh"]),
   ("beef", ["mushrooms", "lentils"]),
   ("oil", ["butter", "ghee"]),
   ("onion", ["shallots", "garlic"]),
   ("garlic", ["garlic powder", "onion powder"])]

/-- Models `SimpleRecipeRecommender._get_substitutions` (lines 134–159): for each
of the first three missing ingredients, the first table key that occurs as
a substring of the lower-cased ingredient contributes its first two
substitutes; an ingredient matching no key is omitted from the result
dict.  The dict is modelled as an association list in insertion order. -/
def wGetSubstitutions (missingIngredients : List String) :
    List (String × List String) :=
  (missingIngredients.take 3).filterMap fun ingredient =>
    (wSubstitutionTable.find?
        (fun kv => strContains (pyLower ingredient) kv.1)).map
      (fun kv => (ingredient, kv.2.take 2))

/-- Models `direct_matches / total_recipe_ingredients` (line 89). -/
def wIngredientMatchScore (q : Finset String) (r : WRecipe) : ℚ :=
  ((wRecipeSet r ∩ q).card : ℚ) / ((wRecipeSet r).card : ℚ)

/-- Models `len(query_ingredients.intersection(recipe_ingredients)) /
len(query_ingredients)` (line 90); the engine reaches this line only with
a non-empty query set. -/
def wCoverageScore (q : Finset String) (r : WRecipe) : ℚ :=
  ((q ∩ wRecipeSet r).card : ℚ) / (q.card : ℚ)

/-- Models `final_score = (ingredient_match_score * 0.6) + (coverage_score * 0.4)`
(line 93). -/
def wFinalScore (q : Finset String) (r : WRecipe) : ℚ :=
  wIngredientMatchScore q r * (6/10) + wCoverageScore q r * (4/10)

/-- Models `list(recipe_ingredients - query_ingredients)` (line 100).  CPython
iterates a set in an unspecified order; the embedding fixes the
first-occurrence order of the normalized ingredient list (the elements are
exactly those of the set difference `wRecipeSet r \ q`). -/
def wMissing (q : Finset String) (r : WRecipe) : List String :=
  (r.ingredients.map normW).dedup.filter (fun s => decide (s ∉ q))

/-- One iteration of the scoring loop of
`SimpleRecipeRecommender.get_recommendations` (lines 60–110) on the recipe
at corpus position `i`: apply the dietary and hard filters, skip recipes
with an empty normalized ingredient set, and admit a scored entry only
when `direct_matches > 0`. -/
def wScore (q : Finset String) (restrictions : List String)
    (maxCookingTime : Option Int) (difficulty cuisine : Option String)
    (i : ℕ) (r : WRecipe) : Option (Scored WRecipe) :=
  if ¬ wDietaryOk restrictions r then none
  else if ¬ wTimeOk maxCookingTime r then none
  else if ¬ wDifficultyOk difficulty r then none
  else if ¬ wCuisineOk cuisine r then none
  else if (wRecipeSet r).card = 0 then none
  else if 0 < (wRecipeSet r ∩ q).card then
    some { recipe := r
           corpusIdx := i
           matchScore := round1 (wFinalScore q r * 100)
           ingredientMatchPercentage := round1 (wIngredientMatchScore q r * 100)
           missingIngredients := wMissing q r
           substitutionSuggestions := wGetSubstitutions (wMissing q r) }
  else none

/-- The scoring loop over the recipes, threading the corpus position. -/
def wScoreAll (q : Finset String) (restrictions : List String)
    (maxCookingTime : Option Int) (difficulty cuisine : Option String) :
    ℕ → List WRecipe → List (Scored WRecipe)
  | _, [] => []
  | i, r :: rest =>
    match wScore q restrictions maxCookingTime difficulty cuisine i r with
    | some e => e :: wScoreAll q restrictions maxCookingTime difficulty cuisine (i + 1) rest
    | none => wScoreAll q restrictions maxCookingTime difficulty cuisine (i + 1) rest

/-- Models `SimpleRecipeRecommender.get_recommendations` (lines 49–118): empty
ingredient list returns `[]` immediately; otherwise score the corpus,
stable-sort by `match_score` descending and truncate to `limit`.  The
outer `try/except` never fires in the embedding because every operation is
total. -/
def wGetRecommendations (corpus : List WRecipe) (ingredients : List String)
    (restrictions : List String) (maxCookingTime : Option Int)
    (difficulty cuisine : Option String) (limit : ℕ) : List (Scored WRecipe) :=
  if ingredients = [] then []
  else
    (sortByScore
      (wScoreAll (wQuerySet ingredients) restrictions maxCookingTime
        difficulty cuisine 0 corpus)).take limit

/-! ## The `app.py` engine (`RecipeRecommendationEngine`) -/

/-- A recipe record as consumed by `RecipeRecommendationEngine`.  Here
`dietary_info` is a list of free-text tags (`contains_dairy`, …); `id` is
read with a raw subscript `recipe['id']`, so its absence raises. -/
structure MRecipe where
  id : Option Int := none
  ingredients : List String := []
  cookingTime : Option Int := none
  difficulty : Option String := none
  cuisine : Option String := none
  dietaryInfo : List String := []
  deriving DecidableEq, Repr

/-- Models `ing.lower()` — `app.py` lower-cases but does not strip. -/
def normM (s : String) : String := pyLower s

/-- Models `set(ing.lower() for ing in recipe.get('ingredients', []))` (line 200). -/
def mRecipeSet (r : MRecipe) : Finset String :=
  (r.ingredients.map normM).toFinset

/-- Models `set(ing.lower() for ing in ingredients)` (line 201). -/
def mQuerySet (ingredients : List String) : Finset String :=
  (ingredients.map normM).toFinset

/-- Models `' '.join(recipe.get('ingredients', [])).lower()` from the dietary
filter. -/
def mJoinedIngredients (r : MRecipe) : String :=
  pyLower (String.intercalate (" ") r.ingredients)

/-- The meat keywords of the `vegetarian` branch (line 132). -/
def meatKeywords : List String :=
  ["chicken", "beef", "pork", "lamb", "fish", "shrimp", "bacon"]

/-- The extended animal-product keywords of the `vegan` branch (line 139). -/
def veganAnimalKeywords : List String :=
  ["chicken", "beef", "pork", "lamb", "fish", "shrimp", "bacon",
   "cheese", "milk", "butter", "eggs"]

/-- One restriction check of
`RecipeRecommendationEngine.filter_by_dietary_restrictions` (lines
130–147).  Restriction names are compared verbatim — no lower-casing, and
only the underscore spellings `gluten_free`/`dairy_free` are recognised;
anything else imposes nothing. -/
def mViolatesRestriction (r : MRecipe) (restriction : String) : Bool :=
  if restriction = "vegetarian" then
    meatKeywords.any (fun k => strContains (mJoinedIngredients r) k)
  else if restriction = "vegan" then
    (["contains_dairy", "contains_eggs"].any
      (fun t => decide (t ∈ r.dietaryInfo))) ||
    veganAnimalKeywords.any (fun k => strContains (mJoinedIngredients r) k)
  else if restriction = "gluten_free" then
    decide ("contains_gluten" ∈ r.dietaryInfo)
  else if restriction = "dairy_free" then
    decide ("contains_dairy" ∈ r.dietaryInfo)
  else false

/-- Models `RecipeRecommendationEngine.filter_by_dietary_restrictions` (lines
119–152): keep, in order, the recipes violating no requested
restriction. -/
def mFilterByDietaryRestrictions (recipes : List MRecipe)
    (restrictions : List String) : List MRecipe :=
  if restrictions = [] then recipes
  else recipes.filter (fun r => ¬ restrictions.any (mViolatesRestriction r))

/-- The static substitution table of
`RecipeRecommendationEngine._load_substitutions` (lines 81–94). -/
def mSubstitutionTable : List (String × List String) :=
  [("butter", ["olive oil", "coconut oil", "margarine"]),
   ("milk", ["almond milk", "soy milk", "coconut milk"]),
   ("eggs", ["flax eggs", "chia eggs", "applesauce"]),
   ("flour", ["almond flour", "coconut flour", "oat flour"]),
   ("sugar", ["honey", "maple syrup", "stevia"]),
   ("chicken", ["tofu", "tempeh", "mushrooms"]),
   ("beef", ["lentils", "black beans", "portobello mushrooms"]),
   ("cheese", ["nutritional yeast", "cashew cheese", "vegan cheese"]),
   ("cream", ["coconut cream", "cashew cream", "silken tofu"]),
   ("bacon", ["tempeh bacon", "coconut bacon", "mushroom bacon"])]

/-- Models `RecipeRecommendationEngine.get_ingredient_substitutions` (lines
111–117): return the substitutes of the first table key matching the
lower-cased ingredient as a substring in either direction, else `[]`. -/
def mGetIngredientSubstitutions (ingredient : String) : List String :=
  match mSubstitutionTable.find?
      (fun kv => strContains (pyLower ingredient) kv.1 ||
                 strContains kv.1 (pyLower ingredient)) with
  | some kv => kv.2
  | none => []

/-- Lines 161–168: the query text fed to the TF-IDF vectorizer —
`' '.join(ingredients)`, then the cuisine preference and the difficulty
when truthy, joined by spaces. -/
def mQueryText (ingredients : List String)
    (cuisine difficulty : Option String) : String :=
  String.intercalate (" ")
    ([String.intercalate (" ") ingredients] ++
      (match cuisine with
       | some c => if c ≠ "" then [c] else []
       | none => []) ++
      (match difficulty with
       | some d => if d ≠ "" then [d] else []
       | none => []))

/-- Lines 185–187: `next((idx for idx, r in enumerate(self.recipes) if
r['id'] == recipe['id']), -1)`.  The raw subscripts raise `KeyError`
(modelled as `Except.error`) as soon as an examined record lacks an `id`;
the comparison evaluates `r['id']` before `recipe['id']`. -/
def mFindOriginalIndex (target : Option Int) : ℕ → List MRecipe → Except Unit Int
  | _, [] => .ok (-1)
  | i, r :: rest =>
    match r.id with
    | none => .error ()
    | some rid =>
      match target with
      | none => .error ()
      | some tid =>
        if rid = tid then .ok (i : Int)
        else mFindOriginalIndex target (i + 1) rest

/-- Line 190: the cooking-time filter of `app.py`, identical to the one of
`app_working.py`. -/
def mTimeOk (maxCookingTime : Option Int) (r : MRecipe) : Bool :=
  match maxCookingTime with
  | none => true
  | some m => if m ≠ 0 ∧ r.cookingTime.getD 0 > m then false else true

/-- Line 193: `if difficulty and recipe.get('difficulty') != difficulty:
continue` — a verbatim, case-sensitive comparison (`None` for a missing
field never equals a set filter). -/
def mDifficultyOk (difficulty : Option String) (r : MRecipe) : Bool :=
  match difficulty with
  | none => true
  | some d => if d ≠ "" ∧ r.difficulty ≠ some d then false else true

/-- Line 196: the analogous case-sensitive cuisine filter. -/
def mCuisineOk (cuisine : Option String) (r : MRecipe) : Bool :=
  match cuisine with
  | none => true
  | some c => if c ≠ "" ∧ r.cuisine ≠ some c then false else true

/-- Line 205: `direct_matches / len(recipe_ingredients) if
recipe_ingredients else 0` — a zero-ingredient recipe is given the default
score `0`, not skipped. -/
def mIngredientMatchScore (q : Finset String) (r : MRecipe) : ℚ :=
  if (mRecipeSet r).card = 0 then 0
  else ((mRecipeSet r ∩ q).card : ℚ) / ((mRecipeSet r).card : ℚ)

/-- Line 208: the guarded coverage score. -/
def mCoverageScore (q : Finset String) (r : MRecipe) : ℚ :=
  if q.card = 0 then 0
  else ((q ∩ mRecipeSet r).card : ℚ) / (q.card : ℚ)

/-- Line 212: `final_score = (ml_score * 0.4) + (ingredient_match_score *
0.4) + (coverage_score * 0.2)`. -/
def mFinalScore (mlScore : ℚ) (q : Finset String) (r : MRecipe) : ℚ :=
  mlScore * (4/10) + mIngredientMatchScore q r * (4/10) +
    mCoverageScore q r * (2/10)

/-- Models `list(recipe_ingredients - query_ingredients)` (line 218), in the
embedding's first-occurrence order (its elements are exactly those of
`mRecipeSet r \ q`). -/
def mMissing (q : Finset String) (r : MRecipe) : List String :=
  (r.ingredients.map normM).dedup.filter (fun s => decide (s ∉ q))

/-- Lines 219–225: query the substitution table for the first three
missing ingredients; keep up to two substitutes each, omitting
ingredients with no substitutes. -/
def mSuggestionsFor (missing : List String) : List (String × List String) :=
  (missing.take 3).filterMap fun ingredient =>
    let subs := mGetIngredientSubstitutions ingredient
    if subs = [] then none else some (ingredient, subs.take 2)

/-- The scored entry built on lines 214–227 for the candidate at scan
position `i` with lexical score `ml`. -/
def mMakeEntry (ml : ℚ) (q : Finset String) (i : ℕ) (r : MRecipe) :
    Scored MRecipe :=
  { recipe := r
    corpusIdx := i
    matchScore := round1 (mFinalScore ml q r * 100)
    ingredientMatchPercentage := round1 (mIngredientMatchScore q r * 100)
    missingIngredients := mMissing q r
    substitutionSuggestions := mSuggestionsFor (mMissing q r) }

/-- The candidate loop of `RecipeRecommendationEngine.get_recommendations`
(lines 182–227): look up the original corpus index by recipe id (a raised
`KeyError` aborts the whole call), skip candidates whose id is not found
or which fail a hard filter, and append a scored entry for every survivor
— there is no `direct_matches > 0` gate. -/
def mProcess (sim : String → ℕ → ℚ) (fullCorpus : List MRecipe)
    (q : Finset String) (qt : String) (maxCookingTime : Option Int)
    (difficulty cuisine : Option String) :
    ℕ → List MRecipe → Except Unit (List (Scored MRecipe))
  | _, [] => .ok []
  | i, r :: rest =>
    match mFindOriginalIndex r.id 0 fullCorpus with
    | .error e => .error e
    | .ok oi =>
      if oi = -1 then
        mProcess sim fullCorpus q qt maxCookingTime difficulty cuisine (i + 1) rest
      else if ¬ mTimeOk maxCookingTime r then
        mProcess sim fullCorpus q qt maxCookingTime difficulty cuisine (i + 1) rest
      else if ¬ mDifficultyOk difficulty r then
        mProcess sim fullCorpus q qt maxCookingTime difficulty cuisine (i + 1) rest
      else if ¬ mCuisineOk cuisine r then
        mProcess sim fullCorpus q qt maxCookingTime difficulty cuisine (i + 1) rest
      else
        match mProcess sim fullCorpus q qt maxCookingTime difficulty cuisine (i + 1) rest with
        | .error e => .error e
        | .ok l => .ok (mMakeEntry (sim qt oi.toNat) q i r :: l)

/-- Models `RecipeRecommendationEngine.get_recommendations` (lines 154–231).
There is no empty-ingredient guard: only an empty corpus short-circuits
(the literal Python `not self.recipe_vectors` truthiness test on a sparse
matrix is modelled as the corpus-emptiness test it is intended to be).
The dietary filter runs when the restriction list is truthy; the
candidates are then scored and any uncaught per-candidate exception
aborts the call. -/
def mGetRecommendations (sim : String → ℕ → ℚ) (corpus : List MRecipe)
    (ingredients : List String) (restrictions : List String)
    (maxCookingTime : Option Int) (difficulty cuisine : Option String)
    (limit : ℕ) : Except Unit (List (Scored MRecipe)) :=
  if corpus = [] then .ok []
  else
    match mProcess sim corpus (mQuerySet ingredients)
        (mQueryText ingredients cuisine difficulty) maxCookingTime
        difficulty cuisine 0
        (if restrictions = [] then corpus
         else mFilterByDietaryRestrictions corpus restrictions) with
    | .error e => .error e
    | .ok recs => .ok ((sortByScore recs).take limit)

/-! ## Helper lemmas: rounding -/

lemma roundHalfEven_nonneg (q : ℚ) (h : 0 ≤ q) : 0 ≤ roundHalfEven q := by
  have hf : (0 : ℤ) ≤ ⌊q⌋ := Int.floor_nonneg.mpr h
  unfold roundHalfEven
  split_ifs <;> omega

lemma roundHalfEven_le_int (q : ℚ) (n : ℤ) (h : q ≤ (n : ℚ)) :
    roundHalfEven q ≤ n := by
  have hf : ⌊q⌋ ≤ n := by
    have := Int.floor_le_floor h
    rwa [Int.floor_intCast] at this
  unfold roundHalfEven
  split_ifs with h1 h2 h3
  · exact hf
  · rcases lt_or_eq_of_le hf with h4 | h4
    · omega
    · exfalso
      have hq : (⌊q⌋ : ℚ) + 1/2 < q := by linarith
      rw [h4] at hq
      linarith
  · exact hf
  · have hr : q - (⌊q⌋ : ℚ) = 1/2 := le_antisymm (not_lt.mp h2) (not_lt.mp h1)
    rcases lt_or_eq_of_le hf with h4 | h4
    · omega
    · exfalso
      have hq : (⌊q⌋ : ℚ) + 1/2 = q := by linarith
      rw [h4] at hq
      linarith

lemma round1_nonneg (q : ℚ) (h : 0 ≤ q) : 0 ≤ round1 q := by
  unfold round1
  have : (0 : ℤ) ≤ roundHalfEven (q * 10) :=
    roundHalfEven_nonneg _ (by positivity)
  positivity

lemma round1_le_hundred (q : ℚ) (h : q ≤ 100) : round1 q ≤ 100 := by
  unfold round1
  have h10 : q * 10 ≤ ((1000 : ℤ) : ℚ) := by push_cast; linarith
  have hle := roundHalfEven_le_int (q * 10) 1000 h10
  rw [div_le_iff₀ (by norm_num : (0:ℚ) < 10)]
  calc ((roundHalfEven (q * 10) : ℤ) : ℚ) ≤ ((1000 : ℤ) : ℚ) := by exact_mod_cast hle
    _ = 100 * 10 := by norm_num

/-! ## Helper lemmas: the stable descending sort -/

/-- The ranking tie-break invariant: whenever two entries carry the same
`match_score`, the one scanned earlier in the corpus comes first. -/
def tieOrd {ρ : Type} (a b : Scored ρ) : Prop :=
  a.matchScore = b.matchScore → a.corpusIdx < b.corpusIdx

lemma sortByScore_sorted {ρ : Type} (l : List (Scored ρ)) :
    (sortByScore l).Pairwise (fun a b => b.matchScore ≤ a.matchScore) :=
  List.sorted_insertionSort scoreGE l

lemma sortByScore_perm {ρ : Type} (l : List (Scored ρ)) :
    (sortByScore l).Perm l :=
  List.perm_insertionSort scoreGE l

lemma pairwise_tie_orderedInsert {ρ : Type} (a : Scored ρ)
    (l : List (Scored ρ)) (hp : l.Pairwise tieOrd)
    (hmono : ∀ b ∈ l, a.corpusIdx < b.corpusIdx) :
    (l.orderedInsert scoreGE a).Pairwise tieOrd := by
  induction l with
  | nil => exact List.pairwise_singleton tieOrd a
  | cons b l ih =>
    rcases List.pairwise_cons.mp hp with ⟨hb, hl⟩
    rw [List.orderedInsert]
    by_cases h : scoreGE a b
    · rw [if_pos h]
      refine List.pairwise_cons.mpr ⟨?_, hp⟩
      intro c hc _
      exact hmono c hc
    · rw [if_neg h]
      refine List.pairwise_cons.mpr ⟨?_, ?_⟩
      · intro c hc
        rcases (List.mem_orderedInsert scoreGE).mp hc with rfl | hc'
        · intro hs
          exact absurd (le_of_eq hs) h
        · exact hb c hc'
      · exact ih hl (fun c hc => hmono c (List.mem_cons_of_mem b hc))

lemma pairwise_tie_sortByScore {ρ : Type} (l : List (Scored ρ))
    (h : l.Pairwise (fun a b => a.corpusIdx < b.corpusIdx)) :
    (sortByScore l).Pairwise tieOrd := by
  induction l with
  | nil => exact List.Pairwise.nil
  | cons a l ih =>
    rcases List.pairwise_cons.mp h with ⟨ha, hl⟩
    exact pairwise_tie_orderedInsert a _ (ih hl)
      (fun b hb => ha b ((sortByScore_perm l).subset hb))

lemma sortByScore_map {ρ ρ' : Type} (f : Scored ρ → Scored ρ')
    (hf : ∀ a, (f a).matchScore = a.matchScore) (l : List (Scored ρ)) :
    (sortByScore l).map f = sortByScore (l.map f) := by
  induction l with
  | nil => rfl
  | cons a l ih =>
    show ((List.insertionSort scoreGE l).orderedInsert scoreGE a).map f = _
    rw [List.map_orderedInsert scoreGE scoreGE f _ a
        (fun b _ => by simp [scoreGE, hf]) (fun b _ => by simp [scoreGE, hf])]
    show List.orderedInsert scoreGE (f a) ((sortByScore l).map f) = _
    rw [ih]
    rfl

/-! ## Helper lemmas: the `app_working.py` scoring loop -/

lemma wScore_eq_some {q : Finset String} {restr : List String}
    {mt : Option Int} {d cz : Option String} {i : ℕ} {r : WRecipe}
    {e : Scored WRecipe} (h : wScore q restr mt d cz i r = some e) :
    e.recipe = r ∧ e.corpusIdx = i ∧
    (wRecipeSet r).card ≠ 0 ∧ 0 < (wRecipeSet r ∩ q).card ∧
    e.matchScore = round1 (wFinalScore q r * 100) ∧
    e.ingredientMatchPercentage = round1 (wIngredientMatchScore q r * 100) := by
  unfold wScore at h
  split_ifs at h with h1 h2 h3 h4 h5 h6
  · simp only [Option.some.injEq] at h
    subst h
    exact ⟨rfl, rfl, h5, h6, rfl, rfl⟩

lemma wScoreAll_mem {q : Finset String} {restr : List String}
    {mt : Option Int} {d cz : Option String} :
    ∀ {i : ℕ} {l : List WRecipe} {e : Scored WRecipe},
      e ∈ wScoreAll q restr mt d cz i l →
      ∃ j r, r ∈ l ∧ wScore q restr mt d cz j r = some e := by
  intro i l
  induction l generalizing i with
  | nil => intro e h; simp [wScoreAll] at h
  | cons r rest ih =>
    intro e h
    simp only [wScoreAll] at h
    cases hs : wScore q restr mt d cz i r with
    | some e' =>
      rw [hs] at h
      rcases List.mem_cons.mp h with rfl | h'
      · exact ⟨i, r, List.mem_cons_self r rest, hs⟩
      · obtain ⟨j, r', hr', hw⟩ := ih h'
        exact ⟨j, r', List.mem_cons_of_mem r hr', hw⟩
    | none =>
      rw [hs] at h
      obtain ⟨j, r', hr', hw⟩ := ih h
      exact ⟨j, r', List.mem_cons_of_mem r hr', hw⟩

lemma wScoreAll_idx_ge {q : Finset String} {restr : List String}
    {mt : Option Int} {d cz : Option String} :
    ∀ {i : ℕ} {l : List WRecipe} {e : Scored WRecipe},
      e ∈ wScoreAll q restr mt d cz i l → i ≤ e.corpusIdx := by
  intro i l
  induction l generalizing i with
  | nil => intro e h; simp [wScoreAll] at h
  | cons r rest ih =>
    intro e h
    simp only [wScoreAll] at h
    cases hs : wScore q restr mt d cz i r with
    | some e' =>
      rw [hs] at h
      rcases List.mem_cons.mp h with rfl | h'
      · exact le_of_eq (wScore_eq_some hs).2.1.symm
      · exact le_trans (Nat.le_succ i) (ih h')
    | none =>
      rw [hs] at h
      exact le_trans (Nat.le_succ i) (ih h)

lemma wScoreAll_idx_pairwise {q : Finset String} {restr : List String}
    {mt : Option Int} {d cz : Option String} :
    ∀ (i : ℕ) (l : List WRecipe),
      (wScoreAll q restr mt d cz i l).Pairwise
        (fun a b => a.corpusIdx < b.corpusIdx) := by
  intro i l
  induction l generalizing i with
  | nil => exact List.Pairwise.nil
  | cons r rest ih =>
    simp only [wScoreAll]
    cases hs : wScore q restr mt d cz i r with
    | some e' =>
      refine List.pairwise_cons.mpr ⟨?_, ih (i + 1)⟩
      intro b hb
      have h1 : e'.corpusIdx = i := (wScore_eq_some hs).2.1
      have h2 : i + 1 ≤ b.corpusIdx := wScoreAll_idx_ge hb
      omega
    | none => exact ih (i + 1)

lemma wIngredientMatchScore_bounds (q : Finset String) (r : WRecipe)
    (h : (wRecipeSet r).card ≠ 0) :
    0 ≤ wIngredientMatchScore q r ∧ wIngredientMatchScore q r ≤ 1 := by
  have hpos : (0 : ℚ) < ((wRecipeSet r).card : ℚ) := by
    exact_mod_cast Nat.pos_of_ne_zero h
  constructor
  · exact div_nonneg (by positivity) (le_of_lt hpos)
  · rw [wIngredientMatchScore, div_le_one hpos]
    exact_mod_cast Finset.card_le_card Finset.inter_subset_left

lemma wCoverageScore_bounds (q : Finset String) (r : WRecipe) :
    0 ≤ wCoverageScore q r ∧ wCoverageScore q r ≤ 1 := by
  rcases Nat.eq_zero_or_pos q.card with hq | hq
  · unfold wCoverageScore
    rw [hq]
    norm_num
  · have hpos : (0 : ℚ) < (q.card : ℚ) := by exact_mod_cast hq
    constructor
    · exact div_nonneg (by positivity) (le_of_lt hpos)
    · rw [wCoverageScore, div_le_one hpos]
      exact_mod_cast Finset.card_le_card Finset.inter_subset_left

lemma wFinalScore_bounds (q : Finset String) (r : WRecipe)
    (h : (wRecipeSet r).card ≠ 0) :
    0 ≤ wFinalScore q r ∧ wFinalScore q r ≤ 1 := by
  obtain ⟨hm0, hm1⟩ := wIngredientMatchScore_bounds q r h
  obtain ⟨hc0, hc1⟩ := wCoverageScore_bounds q r
  unfold wFinalScore
  constructor <;> nlinarith

lemma wScore_matchScore_bounds {q : Finset String} {restr : List String}
    {mt : Option Int} {d cz : Option String} {i : ℕ} {r : WRecipe}
    {e : Scored WRecipe} (h : wScore q restr mt d cz i r = some e) :
    0 ≤ e.matchScore ∧ e.matchScore ≤ 100 := by
  obtain ⟨-, -, hcard, -, hms, -⟩ := wScore_eq_some h
  obtain ⟨hf0, hf1⟩ := wFinalScore_bounds q r hcard
  rw [hms]
  exact ⟨round1_nonneg _ (by nlinarith), round1_le_hundred _ (by nlinarith)⟩

/-! ## Helper lemmas: the `app.py` scoring loop -/

lemma mIngredientMatchScore_bounds (q : Finset String) (r : MRecipe) :
    0 ≤ mIngredientMatchScore q r ∧ mIngredientMatchScore q r ≤ 1 := by
  unfold mIngredientMatchScore
  split_ifs with h
  · norm_num
  · have hpos : (0 : ℚ) < ((mRecipeSet r).card : ℚ) := by
      exact_mod_cast Nat.pos_of_ne_zero h
    constructor
    · exact div_nonneg (by positivity) (le_of_lt hpos)
    · rw [div_le_one hpos]
      exact_mod_cast Finset.card_le_card Finset.inter_subset_left

lemma mCoverageScore_bounds (q : Finset String) (r : MRecipe) :
    0 ≤ mCoverageScore q r ∧ mCoverageScore q r ≤ 1 := by
  unfold mCoverageScore
  split_ifs with h
  · norm_num
  · have hpos : (0 : ℚ) < (q.card : ℚ) := by
      exact_mod_cast Nat.pos_of_ne_zero h
    constructor
    · exact div_nonneg (by positivity) (le_of_lt hpos)
    · rw [div_le_one hpos]
      exact_mod_cast Finset.card_le_card Finset.inter_subset_left

lemma mFinalScore_bounds (ml : ℚ) (q : Finset String) (r : MRecipe)
    (h0 : 0 ≤ ml) (h1 : ml ≤ 1) :
    0 ≤ mFinalScore ml q r ∧ mFinalScore ml q r ≤ 1 := by
  obtain ⟨hm0, hm1⟩ := mIngredientMatchScore_bounds q r
  obtain ⟨hc0, hc1⟩ := mCoverageScore_bounds q r
  unfold mFinalScore
  constructor <;> nlinarith

lemma mMakeEntry_matchScore_bounds (ml : ℚ) (q : Finset String) (i : ℕ)
    (r : MRecipe) (h0 : 0 ≤ ml) (h1 : ml ≤ 1) :
    0 ≤ (mMakeEntry ml q i r).matchScore ∧
      (mMakeEntry ml q i r).matchScore ≤ 100 := by
  obtain ⟨hf0, hf1⟩ := mFinalScore_bounds ml q r h0 h1
  unfold mMakeEntry
  exact ⟨round1_nonneg _ (by nlinarith), round1_le_hundred _ (by nlinarith)⟩

lemma mProcess_cons {sim : String → ℕ → ℚ} {fc : List MRecipe}
    {q : Finset String} {qt : String} {mt : Option Int}
    {d cz : Option String} {i : ℕ} {r : MRecipe} {rest : List MRecipe}
    {res : List (Scored MRecipe)}
    (h : mProcess sim fc q qt mt d cz i (r :: rest) = .ok res) :
    (mProcess sim fc q qt mt d cz (i + 1) rest = .ok res) ∨
    (∃ oi l', mFindOriginalIndex r.id 0 fc = .ok oi ∧
      mProcess sim fc q qt mt d cz (i + 1) rest = .ok l' ∧
      res = mMakeEntry (sim qt oi.toNat) q i r :: l') := by
  simp only [mProcess] at h
  cases hfi : mFindOriginalIndex r.id 0 fc with
  | error err => rw [hfi] at h; exact Except.noConfusion h
  | ok oi =>
    rw [hfi] at h
    dsimp only at h
    by_cases h1 : oi = -1
    · rw [if_pos h1] at h
      exact Or.inl h
    · rw [if_neg h1] at h
      by_cases h2 : ¬ mTimeOk mt r
      · rw [if_pos h2] at h
        exact Or.inl h
      · rw [if_neg h2] at h
        by_cases h3 : ¬ mDifficultyOk d r
        · rw [if_pos h3] at h
          exact Or.inl h
        · rw [if_neg h3] at h
          by_cases h4 : ¬ mCuisineOk cz r
          · rw [if_pos h4] at h
            exact Or.inl h
          · rw [if_neg h4] at h
            cases hrec : mProcess sim fc q qt mt d cz (i + 1) rest with
            | error err => rw [hrec] at h; exact Except.noConfusion h
            | ok l' =>
              rw [hrec] at h
              dsimp only at h
              simp only [Except.ok.injEq] at h
              exact Or.inr ⟨oi, l', rfl, rfl, h.symm⟩

lemma mProcess_ok_mem {sim : String → ℕ → ℚ} {fc : List MRecipe}
    {q : Finset String} {qt : String} {mt : Option Int}
    {d cz : Option String} :
    ∀ {i : ℕ} {l : List MRecipe} {res : List (Scored MRecipe)}
      {e : Scored MRecipe},
      mProcess sim fc q qt mt d cz i l = .ok res → e ∈ res →
      ∃ j n r, e = mMakeEntry (sim qt n) q j r := by
  intro i l
  induction l generalizing i with
  | nil =>
    intro res e h he
    simp only [mProcess] at h
    cases h
    simp at he
  | cons r rest ih =>
    intro res e h he
    rcases mProcess_cons h with h' | ⟨oi, l', -, hrec, rfl⟩
    · exact ih h' he
    · rcases List.mem_cons.mp he with rfl | he'
      · exact ⟨i, oi.toNat, r, rfl⟩
      · exact ih hrec he'

lemma mProcess_ok_idx_ge {sim : String → ℕ → ℚ} {fc : List MRecipe}
    {q : Finset String} {qt : String} {mt : Option Int}
    {d cz : Option String} :
    ∀ {i : ℕ} {l : List MRecipe} {res : List (Scored MRecipe)}
      {e : Scored MRecipe},
      mProcess sim fc q qt mt d cz i l = .ok res → e ∈ res →
      i ≤ e.corpusIdx := by
  intro i l
  induction l generalizing i with
  | nil =>
    intro res e h he
    simp only [mProcess] at h
    cases h
    simp at he
  | cons r rest ih =>
    intro res e h he
    rcases mProcess_cons h with h' | ⟨oi, l', -, hrec, rfl⟩
    · exact le_trans (Nat.le_succ i) (ih h' he)
    · rcases List.mem_cons.mp he with rfl | he'
      · exact le_refl _
      · exact le_trans (Nat.le_succ i) (ih hrec he')

lemma mProcess_ok_idx_pairwise {sim : String → ℕ → ℚ} {fc : List MRecipe}
    {q : Finset String} {qt : String} {mt : Option Int}
    {d cz : Option String} :
    ∀ {i : ℕ} {l : List MRecipe} {res : List (Scored MRecipe)},
      mProcess sim fc q qt mt d cz i l = .ok res →
      res.Pairwise (fun a b => a.corpusIdx < b.corpusIdx) := by
  intro i l
  induction l generalizing i with
  | nil =>
    intro res h
    simp only [mProcess] at h
    cases h
    exact List.Pairwise.nil
  | cons r rest ih =>
    intro res h
    rcases mProcess_cons h with h' | ⟨oi, l', -, hrec, rfl⟩
    · exact ih h'
    · refine List.pairwise_cons.mpr ⟨?_, ih hrec⟩
      intro b hb
      have h2 : i + 1 ≤ b.corpusIdx := mProcess_ok_idx_ge hrec hb
      simp only [mMakeEntry]
      omega

/-! ## Concrete fixtures used by witnesses and counterexamples -/

/-- The all-zero similarity function.  It is realizable by the actual
TF-IDF index: a query text sharing no vocabulary with any recipe profile
(or an empty query text) projects to the zero vector, whose cosine
similarity against every recipe is 0. -/
def simZero : String → ℕ → ℚ := fun _ _ => 0

/-- A minimal `app_working.py` recipe. -/
def wRice : WRecipe := { ingredients := ["rice"] }

/-- A two-ingredient `app_working.py` recipe. -/
def wRiceBeans : WRecipe := { ingredients := ["rice", "beans"] }

/-- A minimal well-formed `app.py` recipe. -/
def mRice : MRecipe := { id := some 1, ingredients := ["rice"] }

/-! ## Claim C1 -/

/-- Claim C1 (amended part): `SimpleRecipeRecommender.get_recommendations`
returns the empty list for every empty ingredient query, whatever the
corpus, the filters and the limit — a zero-result success of the total
function, not an error. -/
theorem claim1_w_empty_ingredients (corpus : List WRecipe)
    (restr : List String) (mt : Option Int) (d cz : Option String)
    (limit : ℕ) :
    wGetRecommendations corpus [] restr mt d cz limit = [] := rfl

/-- Claim C1 counterexample: `RecipeRecommendationEngine.get_recommendations`
has no empty-query guard — on a one-recipe corpus an empty ingredient list
yields a non-empty result list (the recipe, scored 0 from the lexical
term alone), so the claim is false for `app.py`. -/
theorem claim1_counterexample :
    mGetRecommendations simZero [mRice] [] [] none none none 10 =
      Except.ok [mMakeEntry 0 (mQuerySet []) 0 mRice] ∧
    ([mMakeEntry 0 (mQuerySet []) 0 mRice] : List (Scored MRecipe)) ≠ [] ∧
    (mMakeEntry 0 (mQuerySet []) 0 mRice).missingIngredients = ["rice"] := by
  exact ⟨rfl, by simp, rfl⟩

/-! ## Claim C10 -/

/-- Claim C10: in both engines a recipe record with no `cooking_time`
field is never excluded by the `max_cooking_time` filter: the missing
value defaults to `0`, which passes every positive bound; moreover a
missing `cooking_time` behaves exactly like an explicit `0`. -/
theorem claim10_missing_cooking_time_passes (m : Int) (hm : 0 < m) :
    (∀ r : WRecipe, r.cookingTime = none → wTimeOk (some m) r = true) ∧
    (∀ r : MRecipe, r.cookingTime = none → mTimeOk (some m) r = true) ∧
    (∀ (mt : Option Int) (r : WRecipe),
      wTimeOk mt { r with cookingTime := none } =
        wTimeOk mt { r with cookingTime := some 0 }) ∧
    (∀ (mt : Option Int) (r : MRecipe),
      mTimeOk mt { r with cookingTime := none } =
        mTimeOk mt { r with cookingTime := some 0 }) := by
  refine ⟨?_, ?_, ?_, ?_⟩
  · intro r hr
    simp only [wTimeOk, hr, Option.getD_none]
    rw [if_neg]
    rintro ⟨-, h2⟩
    omega
  · intro r hr
    simp only [mTimeOk, hr, Option.getD_none]
    rw [if_neg]
    rintro ⟨-, h2⟩
    omega
  · intro mt r
    cases mt <;> rfl
  · intro mt r
    cases mt <;> rfl

/-- Claim C10 witness: a concrete recipe without `cooking_time` passes the
30-minute filter in both engines. -/
theorem claim10_witness :
    wTimeOk (some 30) { cookingTime := none } = true ∧
    mTimeOk (some 30) { cookingTime := none } = true :=
  ⟨(claim10_missing_cooking_time_passes 30 (by norm_num)).1 _ rfl,
   (claim10_missing_cooking_time_passes 30 (by norm_num)).2.1 _ rfl⟩

/-! ## Claim C4 -/

/-- Claim C4 counterexample: the two spellings are not interchangeable.
In `app_working.py`, the restriction `gluten-free` excludes a recipe whose
flags are all false while `gluten_free` is silently ignored; in `app.py`
it is exactly the other way around for a `contains_gluten`-tagged
recipe.  Replacing hyphens by underscores therefore changes which recipes
are excluded, refuting the claim at these inputs. -/
theorem claim4_counterexample :
    wMatchesDietaryRestrictions {} ["gluten_free"] = true ∧
    wMatchesDietaryRestrictions {} ["gluten-free"] = false ∧
    mFilterByDietaryRestrictions
      [{ id := some 1, dietaryInfo := ["contains_gluten"] }] ["gluten_free"] = [] ∧
    mFilterByDietaryRestrictions
      [{ id := some 1, dietaryInfo := ["contains_gluten"] }] ["gluten-free"] =
      [{ id := some 1, dietaryInfo := ["contains_gluten"] }] := by
  exact ⟨rfl, rfl, rfl, rfl⟩

/-- Claim C4 (amended): each engine recognises exactly one spelling.
`app_working.py` honours only the hyphenated names (after lower-casing)
and treats any other restriction string as unknown (no filtering);
`app.py` honours only the underscore names (case-sensitively) and ignores
the hyphenated ones. -/
theorem claim4_one_spelling_per_engine :
    (∀ (dinfo : WDietary) (restriction : String),
      pyLower restriction ∉
        (["vegetarian", "vegan", "gluten-free", "dairy-free"] : List String) →
      wMatchesDietaryRestrictions dinfo [restriction] = true) ∧
    (∀ dinfo : WDietary,
      wMatchesDietaryRestrictions dinfo ["gluten-free"] = dinfo.glutenFree) ∧
    (∀ dinfo : WDietary,
      wMatchesDietaryRestrictions dinfo ["dairy-free"] = dinfo.dairyFree) ∧
    (∀ r : MRecipe, mViolatesRestriction r ("gluten-free") = false) ∧
    (∀ r : MRecipe, mViolatesRestriction r ("dairy-free") = false) ∧
    (∀ r : MRecipe,
      mViolatesRestriction r ("gluten_free") =
        decide ("contains_gluten" ∈ r.dietaryInfo)) ∧
    (∀ r : MRecipe,
      mViolatesRestriction r ("dairy_free") =
        decide ("contains_dairy" ∈ r.dietaryInfo)) := by
  refine ⟨?_, ?_, ?_, fun r => rfl, fun r => rfl, fun r => rfl, fun r => rfl⟩
  · intro dinfo restriction h
    simp only [List.mem_cons, List.not_mem_nil, or_false, not_or] at h
    obtain ⟨h1, h2, h3, h4⟩ := h
    simp [wMatchesDietaryRestrictions, h1, h2, h3, h4]
  · rintro ⟨v1, v2, g, d4⟩
    cases g <;> rfl
  · rintro ⟨v1, v2, g, d4⟩
    cases d4 <;> rfl

/-- Claim C4 witness: the unknown-spelling clause applied at the concrete
restriction `gluten_free` on the all-false flag record. -/
theorem claim4_witness :
    wMatchesDietaryRestrictions {} ["gluten_free"] = true :=
  claim4_one_spelling_per_engine.1 {} ("gluten_free") (by decide)

/-! ## Claim C5 -/

/-- Modelled from the claim's wording: return the substitute list of the
first table entry whose key matches the target by case-insensitive
substring in either direction, and the empty list when no key matches. -/
def firstMatchTwoWay : List (String × List String) → String → List String
  | [], _ => []
  | (k, subs) :: rest, x =>
    if strContains (pyLower x) k || strContains k (pyLower x) then subs
    else firstMatchTwoWay rest x

/-- Modelled from the claim's wording, restricted to the one direction
`app_working.py` implements (table key inside the target), with its
truncation to the first two substitutes. -/
def firstMatchOneWay : List (String × List String) → String → Option (List String)
  | [], _ => none
  | (k, subs) :: rest, x =>
    if strContains (pyLower x) k then some (subs.take 2)
    else firstMatchOneWay rest x

lemma find?_eq_firstMatchTwoWay (x : String) :
    ∀ t : List (String × List String),
      (match t.find? (fun kv => strContains (pyLower x) kv.1 ||
          strContains kv.1 (pyLower x)) with
       | some kv => kv.2
       | none => []) = firstMatchTwoWay t x := by
  intro t
  induction t with
  | nil => rfl
  | cons kv rest ih =>
    obtain ⟨k, subs⟩ := kv
    simp only [List.find?, firstMatchTwoWay]
    cases h : (strContains (pyLower x) k || strContains k (pyLower x)) <;>
      simp [h, ih]

lemma find?_eq_firstMatchOneWay (x : String) :
    ∀ t : List (String × List String),
      (t.find? (fun kv => strContains (pyLower x) kv.1)).map
        (fun kv => kv.2.take 2) = firstMatchOneWay t x := by
  intro t
  induction t with
  | nil => rfl
  | cons kv rest ih =>
    obtain ⟨k, subs⟩ := kv
    simp only [List.find?, firstMatchOneWay]
    cases h : strContains (pyLower x) k <;> simp [h, ih]

/-- Claim C5 counterexample: at the ingredient `egg` the two engines'
lookups disagree with each other and the claimed both-direction rule
disagrees with `app_working.py`: the key `eggs` matches `egg` only in the
target-inside-key direction, which `app.py` honours (returning the `eggs`
substitutes) but `app_working.py` does not (returning nothing). -/
theorem claim5_counterexample :
    firstMatchTwoWay wSubstitutionTable ("egg") = ["flax eggs", "applesauce"] ∧
    wGetSubstitutions ["egg"] = [] ∧
    mGetIngredientSubstitutions ("egg") =
      ["flax eggs", "chia eggs", "applesauce"] := by
  exact ⟨rfl, rfl, rfl⟩

/-- Claim C5 (amended): `app.py`'s `get_ingredient_substitutions` does
implement the claimed rule — first table entry matching by
case-insensitive substring in either direction, else `[]` — while the
per-ingredient lookup of `app_working.py`'s `_get_substitutions` matches
only with the key inside the ingredient and truncates to the first two
substitutes, omitting the ingredient entirely on no match. -/
theorem claim5_lookup_directions :
    (∀ x, mGetIngredientSubstitutions x = firstMatchTwoWay mSubstitutionTable x) ∧
    (∀ x, wGetSubstitutions [x] =
      match firstMatchOneWay wSubstitutionTable x with
      | some subs => [(x, subs)]
      | none => []) := by
  constructor
  · intro x
    exact find?_eq_firstMatchTwoWay x mSubstitutionTable
  · intro x
    rw [← find?_eq_firstMatchOneWay x wSubstitutionTable]
    cases hf : wSubstitutionTable.find? (fun kv => strContains (pyLower x) kv.1) with
    | none => simp [wGetSubstitutions, hf]
    | some kv => simp [wGetSubstitutions, hf]

/-! ## Claim C6 -/

/-- Claim C6 (amended part): in `app_working.py` no returned result has an
empty normalized ingredient set — zero-ingredient recipes are skipped by
the scoring loop, not given a default score. -/
theorem claim6_w_no_empty_results (corpus : List WRecipe)
    (ing restr : List String) (mt : Option Int) (d cz : Option String)
    (limit : ℕ) :
    ∀ e ∈ wGetRecommendations corpus ing restr mt d cz limit,
      (e.recipe.ingredients.map normW).toFinset ≠ ∅ := by
  intro e he
  unfold wGetRecommendations at he
  split_ifs at he with h
  · simp at he
  · have h1 := List.mem_of_mem_take he
    have h2 := (sortByScore_perm _).subset h1
    obtain ⟨j, r, hr, hw⟩ := wScoreAll_mem h2
    obtain ⟨hrec, -, hcard, -, -, -⟩ := wScore_eq_some hw
    rw [hrec]
    intro hemp
    apply hcard
    show (wRecipeSet r).card = 0
    unfold wRecipeSet
    rw [hemp]
    rfl

/-- Claim C6 counterexample: `app.py` does not skip a zero-ingredient
recipe — line 205 substitutes the default score 0 and the recipe is
returned, so a result with an empty ingredient set is possible. -/
theorem claim6_counterexample :
    mGetRecommendations simZero [{ id := some 1 }] ["x"] [] none none none 10 =
      Except.ok [mMakeEntry 0 (mQuerySet ["x"]) 0 { id := some 1 }] ∧
    ({ id := some 1 } : MRecipe).ingredients = [] := by
  exact ⟨rfl, rfl⟩

/-- Claim C6 witness: the no-empty-result theorem applied to a concrete
one-recipe corpus whose single entry survives. -/
theorem claim6_witness :
    ((["rice"] : List String).map normW).toFinset ≠ ∅ :=
  claim6_w_no_empty_results [wRice] ["rice"] [] none none none 10
    { recipe := wRice
      corpusIdx := 0
      matchScore := round1 (wFinalScore (wQuerySet ["rice"]) wRice * 100)
      ingredientMatchPercentage :=
        round1 (wIngredientMatchScore (wQuerySet ["rice"]) wRice * 100)
      missingIngredients := []
      substitutionSuggestions := [] }
    (List.mem_singleton_self _)

/-! ## Claim C7 -/

lemma wScore_filter_congr {q : Finset String} {restr : List String}
    {mt : Option Int} {d d' cz cz' : Option String} {i : ℕ} {r : WRecipe}
    (hd : wDifficultyOk d r = wDifficultyOk d' r)
    (hc : wCuisineOk cz r = wCuisineOk cz' r) :
    wScore q restr mt d cz i r = wScore q restr mt d' cz' i r := by
  unfold wScore
  rw [hd, hc]

lemma wScoreAll_filter_congr {q : Finset String} {restr : List String}
    {mt : Option Int} {d d' cz cz' : Option String}
    (hd : ∀ r, wDifficultyOk d r = wDifficultyOk d' r)
    (hc : ∀ r, wCuisineOk cz r = wCuisineOk cz' r) :
    ∀ (i : ℕ) (l : List WRecipe),
      wScoreAll q restr mt d cz i l = wScoreAll q restr mt d' cz' i l := by
  intro i l
  induction l generalizing i with
  | nil => rfl
  | cons r rest ih =>
    simp only [wScoreAll]
    rw [wScore_filter_congr (hd r) (hc r), ih]

lemma wGet_filter_congr {d d' cz cz' : Option String}
    (hd : ∀ r, wDifficultyOk d r = wDifficultyOk d' r)
    (hc : ∀ r, wCuisineOk cz r = wCuisineOk cz' r)
    (corpus : List WRecipe) (ing restr : List String) (mt : Option Int)
    (limit : ℕ) :
    wGetRecommendations corpus ing restr mt d cz limit =
      wGetRecommendations corpus ing restr mt d' cz' limit := by
  unfold wGetRecommendations
  split_ifs
  · rfl
  · rw [wScoreAll_filter_congr hd hc]

lemma wDifficultyOk_case_congr {d₁ d₂ : String} (h : pyLower d₁ = pyLower d₂)
    (h1 : d₁ ≠ "") (h2 : d₂ ≠ "") (r : WRecipe) :
    wDifficultyOk (some d₁) r = wDifficultyOk (some d₂) r := by
  unfold wDifficultyOk
  refine if_congr ?_ rfl rfl
  rw [h]
  simp [h1, h2]

lemma wCuisineOk_case_congr {c₁ c₂ : String} (h : pyLower c₁ = pyLower c₂)
    (h1 : c₁ ≠ "") (h2 : c₂ ≠ "") (r : WRecipe) :
    wCuisineOk (some c₁) r = wCuisineOk (some c₂) r := by
  unfold wCuisineOk
  refine if_congr ?_ rfl rfl
  rw [h]
  simp [h1, h2]

/-- Claim C7 (amended): in `app_working.py` the difficulty and cuisine
hard filters are case-insensitive — a recipe survives an active filter
exactly when the lower-cased strings agree, and replacing a filter value
by any case-variant leaves the whole result list unchanged. -/
theorem claim7_case_insensitive_filters :
    (∀ (d : String) (r : WRecipe), d ≠ "" →
      (wDifficultyOk (some d) r = true ↔
        pyLower (r.difficulty.getD ("")) = pyLower d)) ∧
    (∀ (c : String) (r : WRecipe), c ≠ "" →
      (wCuisineOk (some c) r = true ↔
        pyLower (r.cuisine.getD ("")) = pyLower c)) ∧
    (∀ d₁ d₂ : String, pyLower d₁ = pyLower d₂ → d₁ ≠ "" → d₂ ≠ "" →
      ∀ (corpus : List WRecipe) (ing restr : List String) (mt : Option Int)
        (cz : Option String) (limit : ℕ),
        wGetRecommendations corpus ing restr mt (some d₁) cz limit =
          wGetRecommendations corpus ing restr mt (some d₂) cz limit) ∧
    (∀ c₁ c₂ : String, pyLower c₁ = pyLower c₂ → c₁ ≠ "" → c₂ ≠ "" →
      ∀ (corpus : List WRecipe) (ing restr : List String) (mt : Option Int)
        (d : Option String) (limit : ℕ),
        wGetRecommendations corpus ing restr mt d (some c₁) limit =
          wGetRecommendations corpus ing restr mt d (some c₂) limit) := by
  refine ⟨?_, ?_, ?_, ?_⟩
  · intro d r hd
    unfold wDifficultyOk
    dsimp only
    split_ifs with h
    · exact iff_of_false (by simp) h.2
    · push_neg at h
      exact iff_of_true rfl (h hd)
  · intro c r hc
    unfold wCuisineOk
    dsimp only
    split_ifs with h
    · exact iff_of_false (by simp) h.2
    · push_neg at h
      exact iff_of_true rfl (h hc)
  · intro d₁ d₂ h h1 h2 corpus ing restr mt cz limit
    exact wGet_filter_congr (wDifficultyOk_case_congr h h1 h2)
      (fun r => rfl) corpus ing restr mt limit
  · intro c₁ c₂ h h1 h2 corpus ing restr mt d limit
    exact wGet_filter_congr (fun r => rfl)
      (wCuisineOk_case_congr h h1 h2) corpus ing restr mt limit

/-- Claim C7 counterexample: in `app.py` the comparison is raw and
case-sensitive — a recipe whose difficulty is `Easy` is excluded by the
filter `easy` although the two differ only in letter case. -/
theorem claim7_counterexample :
    pyLower ("Easy") = pyLower ("easy") ∧
    mGetRecommendations simZero
      [{ id := some 1, ingredients := ["rice"], difficulty := some ("Easy") }]
      ["rice"] [] none (some ("easy")) none 10 = Except.ok [] := by
  exact ⟨rfl, rfl⟩

/-- Claim C7 witness: the case-insensitive survival criterion and the
case-variant invariance applied at concrete inputs. -/
theorem claim7_witness :
    wDifficultyOk (some ("easy")) { difficulty := some ("Easy") } = true ∧
    wGetRecommendations [wRice] ["rice"] [] none (some ("EASY")) none 10 =
      wGetRecommendations [wRice] ["rice"] [] none (some ("easy")) none 10 := by
  constructor
  · exact (claim7_case_insensitive_filters.1 ("easy") _ (by decide)).mpr rfl
  · exact claim7_case_insensitive_filters.2.2.1 ("EASY") ("easy") rfl
      (by decide) (by decide) [wRice] ["rice"] [] none none 10

/-! ## Claim C2 -/

/-- Claim C2: under the direct-match-gated policy of `app_working.py`,
every returned entry comes from a recipe with a non-empty normalized
ingredient set sharing at least one ingredient with the query, its
`match_score` is exactly
`round(100 * (0.6 * |R ∩ Q| / |R| + 0.4 * |R ∩ Q| / |Q|), 1)` over the
lower-cased trimmed sets, and a query consisting of a single ingredient
appearing in no corpus recipe yields the empty result list. -/
theorem claim2_gated_scoring :
    (∀ (corpus : List WRecipe) (ing restr : List String) (mt : Option Int)
        (d cz : Option String) (limit : ℕ)
        (e : Scored WRecipe),
      e ∈ wGetRecommendations corpus ing restr mt d cz limit →
      (e.recipe.ingredients.map normW).toFinset ∩ (ing.map normW).toFinset ≠ ∅ ∧
      e.matchScore = round1 (100 *
        ((6/10) * (((e.recipe.ingredients.map normW).toFinset ∩
            (ing.map normW).toFinset).card : ℚ) /
            (((e.recipe.ingredients.map normW).toFinset.card : ℚ)) +
         (4/10) * (((e.recipe.ingredients.map normW).toFinset ∩
            (ing.map normW).toFinset).card : ℚ) /
            (((ing.map normW).toFinset.card : ℚ))))) ∧
    (∀ (corpus : List WRecipe) (x : String) (restr : List String)
        (mt : Option Int) (d cz : Option String) (limit : ℕ),
      (∀ r ∈ corpus, normW x ∉ (r.ingredients.map normW).toFinset) →
      wGetRecommendations corpus [x] restr mt d cz limit = []) := by
  constructor
  · intro corpus ing restr mt d cz limit e he
    unfold wGetRecommendations at he
    split_ifs at he with hing
    · simp at he
    · have h1 := List.mem_of_mem_take he
      have h2 := (sortByScore_perm _).subset h1
      obtain ⟨j, r, hr, hw⟩ := wScoreAll_mem h2
      obtain ⟨hrec, -, hcard, hpos, hms, -⟩ := wScore_eq_some hw
      subst hrec
      constructor
      · intro hemp
        rw [show (e.recipe.ingredients.map normW).toFinset ∩
              (ing.map normW).toFinset =
            wRecipeSet e.recipe ∩ wQuerySet ing from rfl] at hemp
        rw [hemp] at hpos
        simp at hpos
      · rw [hms]
        congr 1
        show wFinalScore (wQuerySet ing) e.recipe * 100 =
          100 * ((6/10) * ((wRecipeSet e.recipe ∩ wQuerySet ing).card : ℚ) /
              ((wRecipeSet e.recipe).card : ℚ) +
            (4/10) * ((wRecipeSet e.recipe ∩ wQuerySet ing).card : ℚ) /
              ((wQuerySet ing).card : ℚ))
        unfold wFinalScore wIngredientMatchScore wCoverageScore
        rw [show wQuerySet ing ∩ wRecipeSet e.recipe =
            wRecipeSet e.recipe ∩ wQuerySet ing from Finset.inter_comm _ _]
        ring
  · intro corpus x restr mt d cz limit hnone
    unfold wGetRecommendations
    rw [if_neg (by simp : ¬(([x] : List String) = []))]
    have hall : ∀ (i : ℕ) (l : List WRecipe),
        (∀ r ∈ l, normW x ∉ (r.ingredients.map normW).toFinset) →
        wScoreAll (wQuerySet [x]) restr mt d cz i l = [] := by
      intro i l
      induction l generalizing i with
      | nil => intro _; rfl
      | cons r rest ih =>
        intro hl
        simp only [wScoreAll]
        have hnot : wScore (wQuerySet [x]) restr mt d cz i r = none := by
          have hcap : (wRecipeSet r ∩ wQuerySet [x]).card = 0 := by
            have hq : wRecipeSet r ∩ wQuerySet [x] = ∅ := by
              rw [show wQuerySet [x] = {normW x} from rfl, Finset.inter_comm]
              exact Finset.singleton_inter_of_not_mem
                (hl r (List.mem_cons_self r rest))
            rw [hq]
            rfl
          unfold wScore
          split_ifs <;> simp_all
        rw [hnot]
        exact ih (i + 1) (fun r' hr' => hl r' (List.mem_cons_of_mem r hr'))
    rw [hall 0 corpus hnone]
    exact List.take_nil

/-- Claim C2 witness: on the corpus `[{rice, beans}]` with query `[rice]`
the single returned entry shares an ingredient with the query, and a
query for an ingredient in no recipe returns the empty list. -/
theorem claim2_witness :
    ((["rice", "beans"] : List String).map normW).toFinset ∩
      ((["rice"] : List String).map normW).toFinset ≠ ∅ ∧
    wGetRecommendations [wRice] ["zzz"] [] none none none 10 = [] := by
  constructor
  · exact (claim2_gated_scoring.1 [wRiceBeans] ["rice"] [] none none none 10
      { recipe := wRiceBeans
        corpusIdx := 0
        matchScore := round1 (wFinalScore (wQuerySet ["rice"]) wRiceBeans * 100)
        ingredientMatchPercentage :=
          round1 (wIngredientMatchScore (wQuerySet ["rice"]) wRiceBeans * 100)
        missingIngredients := ["beans"]
        substitutionSuggestions := [] }
      (List.mem_singleton_self _)).1
  · exact claim2_gated_scoring.2 [wRice] ("zzz") [] none none none 10
      (by decide)

/-! ## Claim C3 -/

/-- Claim C3: in both engines every returned list has at most `limit`
entries, every entry's `match_score` lies in `[0, 100]` (for `app.py`,
given that the cosine similarities lie in `[0, 1]`, which holds for
TF-IDF vectors), the `match_score` values are non-increasing along the
list, and entries with equal `match_score` keep their scan (corpus)
order — the stable, deterministic tie-break. -/
theorem claim3_ranking_invariants :
    (∀ (corpus : List WRecipe) (ing restr : List String) (mt : Option Int)
        (d cz : Option String) (limit : ℕ),
      (wGetRecommendations corpus ing restr mt d cz limit).length ≤ limit ∧
      (∀ e ∈ wGetRecommendations corpus ing restr mt d cz limit,
        0 ≤ e.matchScore ∧ e.matchScore ≤ 100) ∧
      (wGetRecommendations corpus ing restr mt d cz limit).Pairwise
        (fun a b => b.matchScore ≤ a.matchScore) ∧
      (wGetRecommendations corpus ing restr mt d cz limit).Pairwise
        (fun a b => a.matchScore = b.matchScore → a.corpusIdx < b.corpusIdx)) ∧
    (∀ sim : String → ℕ → ℚ,
      (∀ t n, 0 ≤ sim t n ∧ sim t n ≤ 1) →
      ∀ (corpus : List MRecipe) (ing restr : List String) (mt : Option Int)
        (d cz : Option String) (limit : ℕ) (l : List (Scored MRecipe)),
        mGetRecommendations sim corpus ing restr mt d cz limit = .ok l →
        l.length ≤ limit ∧
        (∀ e ∈ l, 0 ≤ e.matchScore ∧ e.matchScore ≤ 100) ∧
        l.Pairwise (fun a b => b.matchScore ≤ a.matchScore) ∧
        l.Pairwise
          (fun a b => a.matchScore = b.matchScore → a.corpusIdx < b.corpusIdx)) := by
  constructor
  · intro corpus ing restr mt d cz limit
    unfold wGetRecommendations
    split_ifs with hing
    · refine ⟨by simp, by simp, by simp, by simp⟩
    · refine ⟨List.length_take_le _ _, ?_, ?_, ?_⟩
      · intro e he
        have h1 := List.mem_of_mem_take he
        have h2 := (sortByScore_perm _).subset h1
        obtain ⟨j, r, hr, hw⟩ := wScoreAll_mem h2
        exact wScore_matchScore_bounds hw
      · exact List.Pairwise.sublist (List.take_sublist _ _) (sortByScore_sorted _)
      · exact List.Pairwise.sublist (List.take_sublist _ _)
          (pairwise_tie_sortByScore _ (wScoreAll_idx_pairwise 0 corpus))
  · intro sim hsim corpus ing restr mt d cz limit l h
    unfold mGetRecommendations at h
    by_cases hc : corpus = []
    · rw [if_pos hc] at h
      simp only [Except.ok.injEq] at h
      subst h
      refine ⟨by simp, by simp, by simp, by simp⟩
    · rw [if_neg hc] at h
      cases hproc : mProcess sim corpus (mQuerySet ing)
          (mQueryText ing cz d) mt d cz 0
          (if restr = [] then corpus
           else mFilterByDietaryRestrictions corpus restr) with
      | error err =>
        rw [hproc] at h
        exact Except.noConfusion h
      | ok recs =>
        rw [hproc] at h
        dsimp only at h
        simp only [Except.ok.injEq] at h
        subst h
        refine ⟨List.length_take_le _ _, ?_, ?_, ?_⟩
        · intro e he
          have h1 := List.mem_of_mem_take he
          have h2 := (sortByScore_perm _).subset h1
          obtain ⟨j, n, r, rfl⟩ := mProcess_ok_mem hproc h2
          exact mMakeEntry_matchScore_bounds _ _ _ _ (hsim _ _).1 (hsim _ _).2
        · exact List.Pairwise.sublist (List.take_sublist _ _) (sortByScore_sorted _)
        · exact List.Pairwise.sublist (List.take_sublist _ _)
            (pairwise_tie_sortByScore _ (mProcess_ok_idx_pairwise hproc))

/-- Claim C3 witness: both halves applied at concrete inputs (the all-zero
similarity function trivially satisfies the `[0, 1]` hypothesis). -/
theorem claim3_witness :
    (wGetRecommendations [wRice] ["rice"] [] none none none 10).length ≤ 10 ∧
    ([mMakeEntry 0 (mQuerySet ["rice"]) 0 mRice] : List (Scored MRecipe)).length ≤ 10 := by
  constructor
  · exact (claim3_ranking_invariants.1 [wRice] ["rice"] [] none none none 10).1
  · exact (claim3_ranking_invariants.2 simZero
      (fun t n => ⟨le_refl 0, zero_le_one⟩)
      [mRice] ["rice"] [] none none none 10
      [mMakeEntry 0 (mQuerySet ["rice"]) 0 mRice] rfl).1

/-! ## Claim C8 -/

/-- Two `app_working.py` recipe records agreeing on every field the
scoring loop reads — they may differ arbitrarily in `id` and `name`. -/
def wSameCore (r s : WRecipe) : Prop :=
  r.ingredients = s.ingredients ∧ r.cookingTime = s.cookingTime ∧
  r.difficulty = s.difficulty ∧ r.cuisine = s.cuisine ∧
  r.dietaryInfo = s.dietaryInfo

/-- Forget the embedded recipe record of a scored entry, keeping every
derived field. -/
def stripRecipe {ρ : Type} (e : Scored ρ) : Scored Unit :=
  { recipe := ()
    corpusIdx := e.corpusIdx
    matchScore := e.matchScore
    ingredientMatchPercentage := e.ingredientMatchPercentage
    missingIngredients := e.missingIngredients
    substitutionSuggestions := e.substitutionSuggestions }

lemma wScore_core_congr {q : Finset String} {restr : List String}
    {mt : Option Int} {d cz : Option String} {i : ℕ} {r s : WRecipe}
    (h : wSameCore r s) :
    (wScore q restr mt d cz i r).map stripRecipe =
      (wScore q restr mt d cz i s).map stripRecipe := by
  obtain ⟨h1, h2, h3, h4, h5⟩ := h
  have hrs : wRecipeSet r = wRecipeSet s := by
    unfold wRecipeSet
    rw [h1]
  have hdo : wDietaryOk restr r = wDietaryOk restr s := by
    unfold wDietaryOk
    rw [h5]
  have hto : wTimeOk mt r = wTimeOk mt s := by
    unfold wTimeOk
    rw [h2]
  have hdi : wDifficultyOk d r = wDifficultyOk d s := by
    unfold wDifficultyOk
    rw [h3]
  have hcu : wCuisineOk cz r = wCuisineOk cz s := by
    unfold wCuisineOk
    rw [h4]
  have hfs : wFinalScore q r = wFinalScore q s := by
    unfold wFinalScore wIngredientMatchScore wCoverageScore
    rw [hrs]
  have hims : wIngredientMatchScore q r = wIngredientMatchScore q s := by
    unfold wIngredientMatchScore
    rw [hrs]
  have hmiss : wMissing q r = wMissing q s := by
    unfold wMissing
    rw [h1]
  unfold wScore
  rw [hdo, hto, hdi, hcu, hrs, hfs, hims, hmiss]
  split_ifs <;> rfl

lemma wScoreAll_core_congr {q : Finset String} {restr : List String}
    {mt : Option Int} {d cz : Option String} :
    ∀ {l₁ l₂ : List WRecipe}, List.Forall₂ wSameCore l₁ l₂ → ∀ i : ℕ,
      (wScoreAll q restr mt d cz i l₁).map stripRecipe =
        (wScoreAll q restr mt d cz i l₂).map stripRecipe := by
  intro l₁ l₂ h
  induction h with
  | nil => intro i; rfl
  | @cons a b t₁ t₂ h1 h2 ih =>
    intro i
    simp only [wScoreAll]
    have hc : (wScore q restr mt d cz i a).map stripRecipe =
        (wScore q restr mt d cz i b).map stripRecipe := wScore_core_congr h1
    cases hwa : wScore q restr mt d cz i a with
    | none =>
      rw [hwa] at hc
      cases hwb : wScore q restr mt d cz i b with
      | none => exact ih (i + 1)
      | some eb =>
        rw [hwb] at hc
        exact Option.noConfusion hc
    | some ea =>
      rw [hwa] at hc
      cases hwb : wScore q restr mt d cz i b with
      | none =>
        rw [hwb] at hc
        exact Option.noConfusion hc
      | some eb =>
        rw [hwb] at hc
        simp only [Option.map_some', Option.some.injEq] at hc
        simp only [List.map_cons, hc, ih (i + 1)]

/-- Claim C8 (amended): in `app_working.py` the fields a malformed record
may be missing (`id`, `name`) are immaterial — two corpora agreeing
record-by-record on all other fields produce identical rankings (same
scores, same scan positions, same derived fields), so a record lacking
`id`/`name` is scored like any other rather than skipped, and nothing
aborts. -/
theorem claim8_id_name_immaterial (c₁ c₂ : List WRecipe)
    (h : List.Forall₂ wSameCore c₁ c₂) (ing restr : List String)
    (mt : Option Int) (d cz : Option String) (limit : ℕ) :
    (wGetRecommendations c₁ ing restr mt d cz limit).map stripRecipe =
      (wGetRecommendations c₂ ing restr mt d cz limit).map stripRecipe := by
  unfold wGetRecommendations
  split_ifs with hing
  · rfl
  · rw [List.map_take, List.map_take]
    congr 1
    exact (sortByScore_map (@stripRecipe WRecipe) (fun a => rfl) _).trans
      ((congrArg sortByScore (wScoreAll_core_congr h 0)).trans
        (sortByScore_map (@stripRecipe WRecipe) (fun a => rfl) _).symm)

/-- Claim C8 counterexample: in `app.py` a single malformed record — the
second recipe lacks `id` — aborts the whole call with an uncaught
`KeyError` (modelled as `Except.error`): the well-formed first recipe is
not returned, and no empty result list is produced at the engine
boundary. -/
theorem claim8_counterexample :
    mGetRecommendations simZero [mRice, { ingredients := ["rice"] }]
      ["rice"] [] none none none 10 = Except.error () := rfl

/-- Claim C8 witness: dropping `id` and `name` from a one-recipe corpus
leaves the stripped ranking unchanged. -/
theorem claim8_witness :
    (wGetRecommendations
        [{ id := some 1, name := some ("Rice Bowl"), ingredients := ["rice"] }]
        ["rice"] [] none none none 10).map stripRecipe =
      (wGetRecommendations [{ ingredients := ["rice"] }]
        ["rice"] [] none none none 10).map stripRecipe :=
  claim8_id_name_immaterial _ _
    (List.Forall₂.cons ⟨rfl, rfl, rfl, rfl, rfl⟩ List.Forall₂.nil)
    ["rice"] [] none none none 10

/-! ## Claim C9 -/

/-- Claim C9 (amended part): `app_working.py` is invariant under any
change of the query ingredient list that preserves the lower-cased
trimmed set — duplicates, letter case and surrounding whitespace never
matter, because the query is reduced to `wQuerySet` before scoring and
emptiness of the list coincides with emptiness of the set. -/
theorem claim9_w_query_normalization (ing₁ ing₂ : List String)
    (h : (ing₁.map normW).toFinset = (ing₂.map normW).toFinset)
    (corpus : List WRecipe) (restr : List String) (mt : Option Int)
    (d cz : Option String) (limit : ℕ) :
    wGetRecommendations corpus ing₁ restr mt d cz limit =
      wGetRecommendations corpus ing₂ restr mt d cz limit := by
  have hemp : ing₁ = [] ↔ ing₂ = [] := by
    constructor
    · intro he
      subst he
      have h2 : (ing₂.map normW).toFinset = ∅ := by rw [← h]; rfl
      exact List.map_eq_nil_iff.mp ((List.toFinset_eq_empty_iff _).mp h2)
    · intro he
      subst he
      have h2 : (ing₁.map normW).toFinset = ∅ := by rw [h]; rfl
      exact List.map_eq_nil_iff.mp ((List.toFinset_eq_empty_iff _).mp h2)
  unfold wGetRecommendations
  by_cases h1 : ing₁ = []
  · rw [if_pos h1, if_pos (hemp.mp h1)]
  · rw [if_neg h1, if_neg (fun h2 => h1 (hemp.mpr h2))]
    show (sortByScore (wScoreAll ((ing₁.map normW).toFinset) restr mt d cz
        0 corpus)).take limit = _
    rw [h]
    rfl

/-- Claim C9 counterexample: `app.py` lower-cases but does not trim, so
the queries `[" rice"]` and `["rice"]` — equal as lower-cased trimmed
sets — produce different result lists on the same corpus: with the
untrimmed query the recipe's only ingredient counts as missing (zero
direct matches), with the trimmed one it matches. -/
theorem claim9_counterexample :
    (([" rice"] : List String).map normW).toFinset =
      ((["rice"] : List String).map normW).toFinset ∧
    mGetRecommendations simZero [mRice] [" rice"] [] none none none 10 =
      Except.ok [mMakeEntry 0 (mQuerySet [" rice"]) 0 mRice] ∧
    mGetRecommendations simZero [mRice] ["rice"] [] none none none 10 =
      Except.ok [mMakeEntry 0 (mQuerySet ["rice"]) 0 mRice] ∧
    (mMakeEntry 0 (mQuerySet [" rice"]) 0 mRice).missingIngredients = ["rice"] ∧
    (mMakeEntry 0 (mQuerySet ["rice"]) 0 mRice).missingIngredients = [] := by
  exact ⟨rfl, rfl, rfl, rfl, rfl⟩

/-- Claim C9 witness: a duplicated, re-cased, padded query gives the same
results as its normalized form in `app_working.py`. -/
theorem claim9_witness :
    wGetRecommendations [wRice] ["Rice ", "rice"] [] none none none 10 =
      wGetRecommendations [wRice] ["rice"] [] none none none 10 :=
  claim9_w_query_normalization ["Rice ", "rice"] ["rice"] rfl
    [wRice] [] none none none 10
